import Mathlib

/-!
Shallow embedding of the LinearAlgebraInC matrix library
(`NaiveMatrices.c` and the extended source file that adds
`transposeMatrix` and `multiplyMatrices`).

Modelling decisions:
* The C struct `Matrix { int rows; int cols; double *data; }` becomes a
  Lean structure with `Nat` dimensions and a `List ℚ` buffer (doubles are
  modelled as exact rationals; every claim under study is about shapes,
  indices, mutation and exact elementwise formulas, not rounding).
* Reads `*(data + k)` become `data.getD k 0`; writes become `List.set`
  (a no-op when the index is outside the buffer — out-of-range accesses
  are tracked separately via explicit access-index sets).
* C `for` loops become `List.foldl` over `List.range` / `List.range'`.
* Functions that mutate through pointers return the post-state of every
  buffer they can touch, bundled in an outcome structure; `return false`
  paths return the pre-state unchanged, mirroring the early `return` in C.
-/

namespace NaiveMatrices

/-- The `Matrix` struct: row count, column count and the flattened
row-major data buffer. -/
structure Matrix where
  rows : Nat
  cols : Nat
  data : List ℚ
  deriving Repr, DecidableEq

/-- `checkDimensions`: true iff the two matrices have the same dimensions. -/
def checkDimensions (matrix_a matrix_b : Matrix) : Bool :=
  matrix_a.rows == matrix_b.rows && matrix_a.cols == matrix_b.cols

/-- `isSquare`: true iff the matrix has as many rows as columns. -/
def isSquare (mat : Matrix) : Bool :=
  mat.rows == mat.cols

/-- `multiplyScalar`: the C loop `for(i = 0; i < rows + cols; i++)
data[i] *= scalar;` — note the bound is `rows + cols`, exactly as in the
source. -/
def multiplyScalar (matrix : Matrix) (scalar : ℚ) : Matrix :=
  { matrix with
    data :=
      (List.range (matrix.rows + matrix.cols)).foldl
        (fun d i => d.set i (d.getD i 0 * scalar)) matrix.data }

/-- The buffer offsets read and written by the `multiplyScalar` loop:
one access at every `i` with `0 ≤ i < rows + cols`. -/
def multiplyScalarAccesses (matrix : Matrix) : List Nat :=
  List.range (matrix.rows + matrix.cols)

/-- Post-state of a `sumMatrices` call: the returned bool plus the final
contents of the three matrices reachable through its pointer arguments. -/
structure SumOutcome where
  ok : Bool
  a : Matrix
  b : Matrix
  result : Matrix
  deriving Repr, DecidableEq

/-- The elementwise write loop of `sumMatrices`:
`for(i = 0; i < n; i++) result[i] = a[i] + b[i];`. -/
def sumLoop (a b : Matrix) (init : List ℚ) (n : Nat) : List ℚ :=
  (List.range n).foldl
    (fun d i => d.set i (a.data.getD i 0 + b.data.getD i 0)) init

/-- `sumMatrices`: checks dimensions, sets the result dimensions from
`matrix_a`, negates `matrix_b` IN PLACE via `multiplyScalar` when
`subtraction` is set (as the C source does), then writes
`result[i] = a[i] + b[i]` for `i < a.rows * a.cols`. -/
def sumMatrices (matrix_a matrix_b : Matrix) (subtraction : Bool)
    (result : Matrix) : SumOutcome :=
  if !checkDimensions matrix_a matrix_b then
    ⟨false, matrix_a, matrix_b, result⟩
  else
    let result1 : Matrix := { result with rows := matrix_a.rows, cols := matrix_a.cols }
    let b1 : Matrix := if subtraction then multiplyScalar matrix_b (-1) else matrix_b
    let rdata := sumLoop matrix_a b1 result1.data (matrix_a.rows * matrix_a.cols)
    ⟨true, matrix_a, b1, { result1 with data := rdata }⟩

/-- Post-state of a `multiplyMatrices` call. -/
structure MultOutcome where
  ok : Bool
  a : Matrix
  b : Matrix
  result : Matrix
  deriving Repr, DecidableEq

/-- `multiplyMatrices`: fails when `a.cols ≠ b.rows`; otherwise sets
`result.rows := a.cols` (exactly as the C source does — not `a.rows`),
`result.cols := b.cols`, and runs the triple loop
`result[r][c] = Σ_k a[r][k] * b[k][c]` for `r < a.rows`, `c < b.cols`. -/
def multiplyMatrices (matrix_a matrix_b : Matrix) (result : Matrix) : MultOutcome :=
  if matrix_a.cols != matrix_b.rows then
    ⟨false, matrix_a, matrix_b, result⟩
  else
    let rcols := matrix_b.cols
    let rdata :=
      (List.range matrix_a.rows).foldl
        (fun d r =>
          (List.range matrix_b.cols).foldl
            (fun d c =>
              (List.range matrix_a.cols).foldl
                (fun d k =>
                  d.set (r * rcols + c)
                    (d.getD (r * rcols + c) 0 +
                      matrix_a.data.getD (r * matrix_a.cols + k) 0 *
                        matrix_b.data.getD (k * matrix_b.cols + c) 0))
                (d.set (r * rcols + c) 0))
            d)
        result.data
    ⟨true, matrix_a, matrix_b,
      { rows := matrix_a.cols, cols := matrix_b.cols, data := rdata }⟩

/-- One C-style swap through a temporary:
`temp = d[x]; d[x] = d[y]; d[y] = temp;`. -/
def swapAt (d : List ℚ) (x y : Nat) : List ℚ :=
  (d.set x (d.getD y 0)).set y (d.getD x 0)

/-- The in-place branch of `transposeMatrix`: for `i < rows`, for
`j` from `i+1` to `cols-1`, swap `data[i*cols+j]` with `data[j*cols+i]`. -/
def transposeInPlace (matrix : Matrix) : List ℚ :=
  (List.range matrix.rows).foldl
    (fun d i =>
      (List.range' (i + 1) (matrix.cols - (i + 1))).foldl
        (fun d j => swapAt d (i * matrix.cols + j) (j * matrix.cols + i)) d)
    matrix.data

/-- The out-of-place branch of `transposeMatrix`: a fresh buffer of
`cols * rows` doubles (malloc result, every cell subsequently written),
filled by `result[j * result.cols + i] = matrix[i * matrix.cols + j]`
with `result.cols = matrix.rows`. -/
def transposeOut (matrix : Matrix) : List ℚ :=
  (List.range matrix.rows).foldl
    (fun d i =>
      (List.range matrix.cols).foldl
        (fun d j =>
          d.set (j * matrix.rows + i) (matrix.data.getD (i * matrix.cols + j) 0))
        d)
    (List.replicate (matrix.cols * matrix.rows) 0)

/-- Post-state of a `transposeMatrix` call: the returned bool, the final
contents of the input buffer, the result struct, and whether
`result.data` is the very same pointer as `matrix.data` (the in-place
branch assigns `result->data = matrix->data`; the rectangular branch
mallocs a fresh buffer). -/
structure TransposeOutcome where
  ok : Bool
  matrixData : List ℚ
  result : Matrix
  aliased : Bool
  deriving Repr, DecidableEq

/-- `transposeMatrix`: square matrices are transposed in place and the
result aliases the input buffer with the same dimensions; rectangular
matrices get a fresh `cols × rows` result buffer (allocation always
succeeds in the model, as the spec treats allocation failure as a
resource fault outside the domain semantics). -/
def transposeMatrix (matrix : Matrix) : TransposeOutcome :=
  if isSquare matrix then
    let d := transposeInPlace matrix
    ⟨true, d, ⟨matrix.rows, matrix.cols, d⟩, true⟩
  else
    ⟨true, matrix.data, ⟨matrix.cols, matrix.rows, transposeOut matrix⟩, false⟩

/-- Applying `transposeMatrix` twice: the second call consumes the
result struct produced by the first (for a square input that struct
aliases the input buffer, so the second call re-transposes it). -/
def transposeTwice (matrix : Matrix) : Matrix :=
  (transposeMatrix (transposeMatrix matrix).result).result

/-! Helper lemmas about list reads and writes. -/

/-- Reading after a write: the written value when the write landed at the
read offset and inside the buffer, the old value otherwise. -/
theorem getD_set (l : List ℚ) (i j : Nat) (a : ℚ) :
    (l.set i a).getD j 0 = if i = j ∧ j < l.length then a else l.getD j 0 := by
  by_cases h : i = j
  · subst h
    by_cases h2 : i < l.length
    · simp [List.getD_eq_getElem?_getD, List.getElem?_set, h2]
    · have hnone : l[i]? = none := List.getElem?_eq_none (by omega)
      simp [List.getD_eq_getElem?_getD, List.getElem?_set, h2, hnone]
  · simp [List.getD_eq_getElem?_getD, List.getElem?_set, h]

/-- Folding length-preserving steps preserves the length. -/
theorem length_foldl {α : Type} (l : List α) (f : List ℚ → α → List ℚ)
    (hf : ∀ d a, (f d a).length = d.length) (init : List ℚ) :
    (l.foldl f init).length = init.length := by
  induction l generalizing init with
  | nil => rfl
  | cons x xs ih => rw [List.foldl_cons, ih, hf]

/-- Row-major offsets stay inside an `a × b` buffer. -/
theorem idx_lt {p q a b : Nat} (hp : p < a) (hq : q < b) : p * b + q < a * b :=
  calc p * b + q < p * b + b := by omega
  _ = (p + 1) * b := by ring
  _ ≤ a * b := Nat.mul_le_mul_right b hp

/-- Row-major offsets determine the row and column uniquely. -/
theorem rowcol_inj {n p q i j : Nat} (hq : q < n) (hj : j < n)
    (h : p * n + q = i * n + j) : p = i ∧ q = j := by
  have hpi : p = i := by
    rcases Nat.lt_trichotomy p i with hlt | heq | hgt
    · exfalso
      have h1 : p * n + n ≤ i * n := by
        have h2 : (p + 1) * n ≤ i * n := Nat.mul_le_mul_right n hlt
        calc p * n + n = (p + 1) * n := by ring
        _ ≤ i * n := h2
      linarith
    · exact heq
    · exfalso
      have h1 : i * n + n ≤ p * n := by
        have h2 : (i + 1) * n ≤ p * n := Nat.mul_le_mul_right n hgt
        calc i * n + n = (i + 1) * n := by ring
        _ ≤ p * n := h2
      linarith
  refine ⟨hpi, ?_⟩
  subst hpi
  exact Nat.add_left_cancel h

/-- Concrete matrices used as test inputs in the theorems below. -/
def matA23 : Matrix := ⟨2, 3, [1, 2, 3, 4, 5, 6]⟩

def matB23 : Matrix := ⟨2, 3, [1, 1, 1, 1, 1, 2]⟩

def matC32 : Matrix := ⟨3, 2, [7, 8, 9, 10, 11, 12]⟩

def matS22a : Matrix := ⟨2, 2, [1, 2, 3, 4]⟩

def matS22b : Matrix := ⟨2, 2, [5, 6, 7, 8]⟩

def res22z : Matrix := ⟨2, 2, [0, 0, 0, 0]⟩

def res23z : Matrix := ⟨2, 3, [0, 0, 0, 0, 0, 0]⟩

def vec13 : Matrix := ⟨1, 3, [1, 2, 3]⟩

/-- Claim C1: the claim says the product of a `2 × 3` matrix and a `3 × 2`
matrix has `a.rows = 2` rows; the code instead sizes the result with
`result->rows = matrix_a->cols = 3`.  Evaluated at `A = matA23`,
`B = matC32`, the call succeeds but reports a `3 × 2` result. -/
theorem multiplyMatrices_shape_bug :
    (multiplyMatrices matA23 matC32 res22z).ok = true ∧
    (multiplyMatrices matA23 matC32 res22z).result.rows = 3 ∧
    matA23.rows = 2 ∧ matA23.cols = 3 ∧ matC32.cols = 2 := by
  decide

/-- Claim C2: the claim says `multiplyScalar` scales all `rows * cols`
elements; the code loop bound is `rows + cols`, so on the `2 × 3` matrix
`matA23 = [1,2,3,4,5,6]` scaled by `2` the element at linear index `5`
stays `6` instead of becoming `2 * 6 = 12`. -/
theorem multiplyScalar_skips_element :
    (multiplyScalar matA23 2).data.getD 5 0 = 6 ∧
    (2 : ℚ) * matA23.data.getD 5 0 = 12 := by
  norm_num [multiplyScalar, matA23, List.range_succ]

/-- Claim C3: the claim says subtraction leaves `b` unmodified; the code
negates `b` in place via `multiplyScalar(b, -1.0)`.  Evaluated on the
`2 × 2` pair `matS22a`, `matS22b`: after the call `b` holds `-5` at index
`0` where it held `5` before. -/
theorem sumMatrices_subtraction_mutates_b :
    (sumMatrices matS22a matS22b true res22z).b ≠ matS22b ∧
    (sumMatrices matS22a matS22b true res22z).b.data.getD 0 0 = -5 ∧
    matS22b.data.getD 0 0 = 5 := by
  norm_num [sumMatrices, sumLoop, checkDimensions, multiplyScalar,
    matS22a, matS22b, res22z, List.range_succ]

/-- Claim C4: the claim says `result[i] = A[i] - B[i]` at every index of a
subtraction; on the `2 × 3` pair `matA23`, `matB23` the in-place negation
of `b` stops after `rows + cols = 5` elements, so at linear index `5` the
code produces `A[5] + B[5] = 8` instead of `A[5] - B[5] = 4`. -/
theorem sumMatrices_subtraction_wrong_value :
    (sumMatrices matA23 matB23 true res23z).result.data.getD 5 0 = 8 ∧
    matA23.data.getD 5 0 - matB23.data.getD 5 0 = 4 := by
  norm_num [sumMatrices, sumLoop, checkDimensions, multiplyScalar,
    matA23, matB23, res23z, List.range_succ]

/-- Claim C6: when the shapes differ, `sumMatrices` returns `false` and
leaves `a`, `b` and `result` exactly as they were — the post-state is the
pre-state for all three matrices, with no partial write. -/
theorem sumMatrices_mismatch_frame (a b result : Matrix) (sub : Bool)
    (hdim : checkDimensions a b = false) :
    sumMatrices a b sub result = ⟨false, a, b, result⟩ := by
  simp [sumMatrices, hdim]

/-- Claim C6, witness: a `2 × 3` next to a `3 × 2` matrix. -/
theorem sumMatrices_mismatch_frame_witness :
    checkDimensions matA23 matC32 = false ∧
    sumMatrices matA23 matC32 true res23z = ⟨false, matA23, matC32, res23z⟩ :=
  ⟨by decide, sumMatrices_mismatch_frame matA23 matC32 res23z true (by decide)⟩

/-- Claim C7: when the inner dimensions disagree, `multiplyMatrices`
returns `false` and leaves `a`, `b` and `result` exactly as they were. -/
theorem multiplyMatrices_mismatch_frame (a b result : Matrix)
    (hdim : a.cols ≠ b.rows) :
    multiplyMatrices a b result = ⟨false, a, b, result⟩ := by
  simp [multiplyMatrices, hdim]

/-- Claim C7, witness: a `2 × 3` matrix against a `2 × 2` one. -/
theorem multiplyMatrices_mismatch_frame_witness :
    matA23.cols ≠ matS22a.rows ∧
    multiplyMatrices matA23 matS22a res22z = ⟨false, matA23, matS22a, res22z⟩ :=
  ⟨by decide, multiplyMatrices_mismatch_frame matA23 matS22a res22z (by decide)⟩

/-- Claim C10: on a matrix whose buffer holds exactly `rows * cols`
elements with `rows + cols > rows * cols` (any row vector, for instance),
the `multiplyScalar` loop accesses an offset at or beyond the end of the
buffer: an out-of-range access under bounds-checked indexing. -/
theorem multiplyScalar_out_of_range (m : Matrix)
    (hlen : m.data.length = m.rows * m.cols)
    (hover : m.rows * m.cols < m.rows + m.cols) :
    ∃ i ∈ multiplyScalarAccesses m, m.data.length ≤ i := by
  refine ⟨m.rows * m.cols, ?_, by omega⟩
  simp only [multiplyScalarAccesses, List.mem_range]
  omega

/-- Claim C10, witness: the `1 × 3` row vector `vec13`. -/
theorem multiplyScalar_out_of_range_witness :
    vec13.data.length = vec13.rows * vec13.cols ∧
    vec13.rows * vec13.cols < vec13.rows + vec13.cols ∧
    ∃ i ∈ multiplyScalarAccesses vec13, vec13.data.length ≤ i :=
  ⟨by decide, by decide,
    multiplyScalar_out_of_range vec13 (by decide) (by decide)⟩

/-- `sumLoop` does not change the buffer length. -/
theorem length_sumLoop (a b : Matrix) (init : List ℚ) (n : Nat) :
    (sumLoop a b init n).length = init.length := by
  simp only [sumLoop]
  exact length_foldl _ _ (fun d i => List.length_set d i _) init

/-- What `sumLoop` leaves at each offset: the elementwise sum at offsets
both below the loop bound and inside the buffer, the old contents
elsewhere. -/
theorem sumLoop_getD (a b : Matrix) (init : List ℚ) (n k : Nat) :
    (sumLoop a b init n).getD k 0 =
      if k < n ∧ k < init.length then a.data.getD k 0 + b.data.getD k 0
      else init.getD k 0 := by
  induction n with
  | zero => simp [sumLoop]
  | succ n ih =>
    have hlen : (sumLoop a b init n).length = init.length := length_sumLoop a b init n
    have hstep : sumLoop a b init (n + 1) =
        (sumLoop a b init n).set n (a.data.getD n 0 + b.data.getD n 0) := by
      simp only [sumLoop, List.range_succ, List.foldl_append, List.foldl_cons,
        List.foldl_nil]
    rw [hstep, getD_set, hlen, ih]
    by_cases h1 : n = k
    · subst h1
      by_cases h2 : n < init.length
      · simp [h2]
      · have h3 : ¬(n < n ∧ n < init.length) := by omega
        simp [h2, h3]
    · have hiff : (k < n + 1 ∧ k < init.length) ↔ (k < n ∧ k < init.length) := by
        omega
      simp [h1, hiff]

/-- Claim C5: on equal shapes, addition (`subtraction = false`) succeeds,
the result takes the dimensions of `a`, every element of the result is the
elementwise sum, and both inputs come back exactly as they went in. -/
theorem sumMatrices_add_correct (a b result : Matrix)
    (hdim : checkDimensions a b = true)
    (hres : a.rows * a.cols ≤ result.data.length) :
    (sumMatrices a b false result).ok = true ∧
    (sumMatrices a b false result).result.rows = a.rows ∧
    (sumMatrices a b false result).result.cols = a.cols ∧
    (sumMatrices a b false result).a = a ∧
    (sumMatrices a b false result).b = b ∧
    ∀ i, i < a.rows * a.cols →
      (sumMatrices a b false result).result.data.getD i 0 =
        a.data.getD i 0 + b.data.getD i 0 := by
  simp only [sumMatrices, hdim, Bool.not_true, Bool.false_eq_true, if_false,
    Bool.false_eq_true, ite_false]
  refine ⟨trivial, trivial, trivial, trivial, trivial, ?_⟩
  intro i hi
  rw [sumLoop_getD]
  have hcond : i < a.rows * a.cols ∧ i < result.data.length := ⟨hi, by omega⟩
  simp [hcond]

/-- Claim C5, witness: adding two `2 × 3` matrices, checked at linear
index `5`. -/
theorem sumMatrices_add_correct_witness :
    checkDimensions matA23 matB23 = true ∧
    matA23.rows * matA23.cols ≤ res23z.data.length ∧
    (sumMatrices matA23 matB23 false res23z).result.data.getD 5 0 =
      matA23.data.getD 5 0 + matB23.data.getD 5 0 :=
  ⟨by decide, by decide,
    (sumMatrices_add_correct matA23 matB23 res23z (by decide)
      (by decide)).2.2.2.2.2 5 (by decide)⟩

/-! The in-place transpose: characterizing the double swap loop. -/

/-- `swapAt` does not change the buffer length. -/
theorem length_swapAt (d : List ℚ) (x y : Nat) :
    (swapAt d x y).length = d.length := by
  simp [swapAt]

/-- A swap exchanges the contents at its two offsets and leaves every
other offset alone. -/
theorem getD_swapAt (d : List ℚ) (x y : Nat) (hx : x < d.length)
    (hy : y < d.length) (k : Nat) :
    (swapAt d x y).getD k 0 =
      if k = y then d.getD x 0
      else if k = x then d.getD y 0
      else d.getD k 0 := by
  unfold swapAt
  rw [getD_set, getD_set]
  simp only [List.length_set]
  split_ifs <;> first
    | rfl
    | omega

/-- The inner loop of the in-place transpose, generalized to start at an
arbitrary column `s` and run for `m` iterations: swaps `(i, j)` with
`(j, i)` for `j = s, s+1, ..., s+m-1`.  The loop in the source is the
instance `s = i+1`, `m = cols - (i+1)`. -/
def innerSwaps (n i : Nat) (d : List ℚ) (s m : Nat) : List ℚ :=
  (List.range' s m).foldl (fun d j => swapAt d (i * n + j) (j * n + i)) d

/-- Unfolding one iteration of the inner loop. -/
theorem innerSwaps_succ (n i : Nat) (d : List ℚ) (s m : Nat) :
    innerSwaps n i d s (m + 1) =
      innerSwaps n i (swapAt d (i * n + s) (s * n + i)) (s + 1) m := by
  simp only [innerSwaps, List.range'_succ, List.foldl_cons]

/-- The inner loop does not change the buffer length. -/
theorem length_innerSwaps (n i : Nat) (d : List ℚ) (s m : Nat) :
    (innerSwaps n i d s m).length = d.length := by
  simp only [innerSwaps]
  exact length_foldl _ _ (fun d j => length_swapAt d _ _) d

/-- What the generalized inner loop leaves at each row-major offset of an
`n × n` buffer: cell `(i, q)` receives the old cell `(q, i)` for covered
columns `q`, cell `(p, i)` receives the old cell `(i, p)` for covered
rows `p`, and every other cell keeps its contents. -/
theorem innerSwaps_getD (n i : Nat) :
    ∀ (m s : Nat) (d : List ℚ), d.length = n * n → i < s → s + m ≤ n →
    ∀ p q : Nat, p < n → q < n →
      (innerSwaps n i d s m).getD (p * n + q) 0 =
        if p = i ∧ s ≤ q ∧ q < s + m then d.getD (q * n + i) 0
        else if q = i ∧ s ≤ p ∧ p < s + m then d.getD (i * n + p) 0
        else d.getD (p * n + q) 0 := by
  intro m
  induction m with
  | zero =>
    intro s d hlen his hsm p q hp hq
    simp only [innerSwaps, List.range', List.foldl_nil]
    split_ifs <;> first
      | rfl
      | omega
  | succ m ih =>
    intro s d hlen his hsm p q hp hq
    have hin : i < n := by omega
    have hsn : s < n := by omega
    have hx : i * n + s < d.length := by rw [hlen]; exact idx_lt hin hsn
    have hy : s * n + i < d.length := by rw [hlen]; exact idx_lt hsn hin
    have hiff1 : (q * n + i = s * n + i) ↔ q = s :=
      ⟨fun h => (rowcol_inj hin hin h).1, fun h => by rw [h]⟩
    have hiff2 : (q * n + i = i * n + s) ↔ (q = i ∧ i = s) :=
      ⟨fun h => rowcol_inj hin hsn h, fun h => by
        rcases h with ⟨h1, h2⟩; subst h1; subst h2; rfl⟩
    have hiff3 : (i * n + p = s * n + i) ↔ (i = s ∧ p = i) :=
      ⟨fun h => rowcol_inj hp hin h, fun h => by
        rcases h with ⟨h1, h2⟩; subst h2; subst h1; rfl⟩
    have hiff4 : (i * n + p = i * n + s) ↔ p = s :=
      ⟨fun h => Nat.add_left_cancel h, fun h => by rw [h]⟩
    have hiff5 : (p * n + q = s * n + i) ↔ (p = s ∧ q = i) :=
      ⟨fun h => rowcol_inj hq hin h, fun h => by
        rcases h with ⟨h1, h2⟩; subst h1; subst h2; rfl⟩
    have hiff6 : (p * n + q = i * n + s) ↔ (p = i ∧ q = s) :=
      ⟨fun h => rowcol_inj hq hsn h, fun h => by
        rcases h with ⟨h1, h2⟩; subst h1; subst h2; rfl⟩
    rw [innerSwaps_succ,
      ih (s + 1) _ (by rw [length_swapAt]; exact hlen) (by omega) (by omega) p q hp hq]
    simp only [getD_swapAt d (i * n + s) (s * n + i) hx hy,
      hiff1, hiff2, hiff3, hiff4, hiff5, hiff6]
    split_ifs <;> (try casesm* _ ∧ _) <;> subst_vars <;> first
      | rfl
      | omega

/-- The outer loop of the in-place transpose, running the inner loop for
rows `0, 1, ..., m-1` of an `n × n` buffer. -/
def outerSwaps (n : Nat) (d : List ℚ) (m : Nat) : List ℚ :=
  (List.range m).foldl (fun d i => innerSwaps n i d (i + 1) (n - (i + 1))) d

/-- Peeling the last iteration of the outer loop. -/
theorem outerSwaps_succ (n : Nat) (d : List ℚ) (m : Nat) :
    outerSwaps n d (m + 1) =
      innerSwaps n m (outerSwaps n d m) (m + 1) (n - (m + 1)) := by
  simp only [outerSwaps, List.range_succ, List.foldl_append, List.foldl_cons,
    List.foldl_nil]

/-- The outer loop does not change the buffer length. -/
theorem length_outerSwaps (n : Nat) (d : List ℚ) (m : Nat) :
    (outerSwaps n d m).length = d.length := by
  induction m with
  | zero => rfl
  | succ m ih => rw [outerSwaps_succ, length_innerSwaps, ih]

/-- After the first `m` rows have been processed, every cell with row or
column index below `m` holds the mirrored original cell, and every cell
with both indices at or beyond `m` is still untouched. -/
theorem outerSwaps_getD (n : Nat) :
    ∀ (m : Nat) (d : List ℚ), d.length = n * n → m ≤ n →
    ∀ p q : Nat, p < n → q < n →
      (outerSwaps n d m).getD (p * n + q) 0 =
        if p < m ∨ q < m then d.getD (q * n + p) 0
        else d.getD (p * n + q) 0 := by
  intro m
  induction m with
  | zero =>
    intro d hlen hm p q hp hq
    rw [if_neg (by omega)]
    rfl
  | succ m ih =>
    intro d hlen hm p q hp hq
    rw [outerSwaps_succ,
      innerSwaps_getD n m (n - (m + 1)) (m + 1) (outerSwaps n d m)
        (by rw [length_outerSwaps]; exact hlen) (by omega) (by omega) p q hp hq,
      ih d hlen (by omega) q m hq (by omega),
      ih d hlen (by omega) m p (by omega) hp,
      ih d hlen (by omega) p q hp hq]
    split_ifs <;> (try casesm* _ ∧ _) <;> subst_vars <;> first
      | rfl
      | omega
      | (have hpm : p = m := by omega
         have hqm : q = m := by omega
         subst hpm
         subst hqm
         rfl)

/-- `transposeInPlace` is the `rows`-step outer loop over an
`n = cols` buffer. -/
theorem transposeInPlace_eq (m : Matrix) :
    transposeInPlace m = outerSwaps m.cols m.data m.rows := by
  simp only [transposeInPlace, outerSwaps, innerSwaps]

/-- The in-place transpose does not change the buffer length. -/
theorem length_transposeInPlace (m : Matrix) :
    (transposeInPlace m).length = m.data.length := by
  rw [transposeInPlace_eq, length_outerSwaps]

/-- On a square matrix with a correctly sized buffer, the in-place swap
loop puts the original cell `(q, p)` at cell `(p, q)`. -/
theorem transposeInPlace_getD (m : Matrix) (hsq : m.rows = m.cols)
    (hlen : m.data.length = m.rows * m.cols) (p q : Nat)
    (hp : p < m.cols) (hq : q < m.cols) :
    (transposeInPlace m).getD (p * m.cols + q) 0 =
      m.data.getD (q * m.cols + p) 0 := by
  have hpr : p < m.rows := by rw [hsq]; exact hp
  have hlen2 : m.data.length = m.cols * m.cols := by rw [hlen, hsq]
  have h := outerSwaps_getD m.cols m.rows m.data hlen2 hsq.le p q hp hq
  rw [transposeInPlace_eq, h, if_pos (Or.inl hpr)]

/-- Claim C8: on a square matrix whose buffer holds `rows * cols`
elements, `transposeMatrix` succeeds, returns a result with the input's
dimensions whose buffer is the very same (aliased) buffer as the input's,
and after the call the shared buffer holds the original `(j, i)` element
at position `(i, j)` (so in particular the diagonal is untouched and each
off-diagonal pair has been swapped). -/
theorem transposeMatrix_square_correct (m : Matrix)
    (hsq : isSquare m = true) (hlen : m.data.length = m.rows * m.cols) :
    (transposeMatrix m).ok = true ∧
    (transposeMatrix m).aliased = true ∧
    (transposeMatrix m).result.rows = m.rows ∧
    (transposeMatrix m).result.cols = m.cols ∧
    (transposeMatrix m).result.data = (transposeMatrix m).matrixData ∧
    ∀ i j : Nat, i < m.rows → j < m.rows →
      (transposeMatrix m).matrixData.getD (i * m.cols + j) 0 =
        m.data.getD (j * m.cols + i) 0 := by
  have hrc : m.rows = m.cols := by simpa [isSquare] using hsq
  simp only [transposeMatrix, hsq, if_true]
  refine ⟨trivial, trivial, trivial, trivial, trivial, ?_⟩
  intro i j hi hj
  exact transposeInPlace_getD m hrc hlen i j (hrc ▸ hi) (hrc ▸ hj)

/-- Claim C8, witness: the square matrix `matS22a`, checked at the
off-diagonal cell `(0, 1)`. -/
theorem transposeMatrix_square_correct_witness :
    isSquare matS22a = true ∧
    matS22a.data.length = matS22a.rows * matS22a.cols ∧
    (transposeMatrix matS22a).matrixData.getD (0 * matS22a.cols + 1) 0 =
      matS22a.data.getD (1 * matS22a.cols + 0) 0 :=
  ⟨by decide, by decide,
    (transposeMatrix_square_correct matS22a (by decide) (by decide)).2.2.2.2.2 0 1
      (by decide) (by decide)⟩

/-! The out-of-place (rectangular) transpose loop. -/

/-- The inner loop of the out-of-place transpose for source row `i`,
generalized to `m` iterations: writes `matrix[i][j]` to result offset
`j * rows + i` for `j = 0, ..., m-1`. -/
def outInner (M : Matrix) (i : Nat) (d : List ℚ) (m : Nat) : List ℚ :=
  (List.range m).foldl
    (fun d j => d.set (j * M.rows + i) (M.data.getD (i * M.cols + j) 0)) d

/-- The outer loop of the out-of-place transpose over the first `m`
source rows. -/
def outOuter (M : Matrix) (d : List ℚ) (m : Nat) : List ℚ :=
  (List.range m).foldl (fun d i => outInner M i d M.cols) d

/-- `transposeOut` is the full outer loop started on the fresh buffer. -/
theorem transposeOut_eq (M : Matrix) :
    transposeOut M = outOuter M (List.replicate (M.cols * M.rows) 0) M.rows := by
  simp only [transposeOut, outOuter, outInner]

/-- Peeling the last iteration of the out-of-place inner loop. -/
theorem outInner_succ (M : Matrix) (i : Nat) (d : List ℚ) (m : Nat) :
    outInner M i d (m + 1) =
      (outInner M i d m).set (m * M.rows + i) (M.data.getD (i * M.cols + m) 0) := by
  simp only [outInner, List.range_succ, List.foldl_append, List.foldl_cons,
    List.foldl_nil]

/-- The out-of-place inner loop does not change the buffer length. -/
theorem length_outInner (M : Matrix) (i : Nat) (d : List ℚ) (m : Nat) :
    (outInner M i d m).length = d.length := by
  simp only [outInner]
  exact length_foldl _ _ (fun d j => List.length_set d _ _) d

/-- Peeling the last iteration of the out-of-place outer loop. -/
theorem outOuter_succ (M : Matrix) (d : List ℚ) (m : Nat) :
    outOuter M d (m + 1) = outInner M m (outOuter M d m) M.cols := by
  simp only [outOuter, List.range_succ, List.foldl_append, List.foldl_cons,
    List.foldl_nil]

/-- The out-of-place outer loop does not change the buffer length. -/
theorem length_outOuter (M : Matrix) (d : List ℚ) (m : Nat) :
    (outOuter M d m).length = d.length := by
  induction m with
  | zero => rfl
  | succ m ih => rw [outOuter_succ, length_outInner, ih]

/-- The fresh result buffer of `transposeOut` has `cols * rows` cells. -/
theorem length_transposeOut (M : Matrix) :
    (transposeOut M).length = M.cols * M.rows := by
  rw [transposeOut_eq, length_outOuter, List.length_replicate]

/-- What the out-of-place inner loop for source row `i` leaves at result
cell `(q, p)` (offset `q * rows + p` in the `cols × rows` result): the
source cell `(i, q)` when `p = i` and column `q` is covered, the previous
contents otherwise. -/
theorem outInner_getD (M : Matrix) (i : Nat) (hi : i < M.rows) :
    ∀ (m : Nat) (d : List ℚ), d.length = M.cols * M.rows → m ≤ M.cols →
    ∀ p q : Nat, p < M.rows → q < M.cols →
      (outInner M i d m).getD (q * M.rows + p) 0 =
        if p = i ∧ q < m then M.data.getD (i * M.cols + q) 0
        else d.getD (q * M.rows + p) 0 := by
  intro m
  induction m with
  | zero =>
    intro d hlen hm p q hp hq
    rw [if_neg (by omega)]
    rfl
  | succ m ih =>
    intro d hlen hm p q hp hq
    have hmc : m < M.cols := by omega
    have hiff : (m * M.rows + i = q * M.rows + p) ↔ (m = q ∧ i = p) :=
      ⟨fun h => rowcol_inj hi hp h, fun h => by
        rcases h with ⟨h1, h2⟩; subst h1; subst h2; rfl⟩
    have hidx : q * M.rows + p < M.cols * M.rows := idx_lt hq hp
    rw [outInner_succ, getD_set, length_outInner, hlen,
      ih d hlen (by omega) p q hp hq]
    simp only [hiff, iff_true_intro hidx, and_true]
    split_ifs <;> (try casesm* _ ∧ _) <;> subst_vars <;> first
      | rfl
      | omega

/-- What the out-of-place outer loop leaves at result cell `(q, p)`:
the source cell `(p, q)` once row `p` has been processed, the previous
contents otherwise. -/
theorem outOuter_getD (M : Matrix) :
    ∀ (m : Nat) (d : List ℚ), d.length = M.cols * M.rows → m ≤ M.rows →
    ∀ p q : Nat, p < M.rows → q < M.cols →
      (outOuter M d m).getD (q * M.rows + p) 0 =
        if p < m then M.data.getD (p * M.cols + q) 0
        else d.getD (q * M.rows + p) 0 := by
  intro m
  induction m with
  | zero =>
    intro d hlen hm p q hp hq
    rw [if_neg (by omega)]
    rfl
  | succ m ih =>
    intro d hlen hm p q hp hq
    rw [outOuter_succ,
      outInner_getD M m (by omega) M.cols (outOuter M d m)
        (by rw [length_outOuter]; exact hlen) le_rfl p q hp hq,
      ih d hlen (by omega) p q hp hq]
    split_ifs <;> (try casesm* _ ∧ _) <;> subst_vars <;> first
      | rfl
      | omega

/-- The out-of-place transpose puts the source cell `(p, q)` at result
offset `q * rows + p`, for every valid source cell. -/
theorem transposeOut_getD (M : Matrix) (p q : Nat) (hp : p < M.rows)
    (hq : q < M.cols) :
    (transposeOut M).getD (q * M.rows + p) 0 = M.data.getD (p * M.cols + q) 0 := by
  rw [transposeOut_eq,
    outOuter_getD M M.rows (List.replicate (M.cols * M.rows) 0)
      (by rw [List.length_replicate]) le_rfl p q hp hq,
    if_pos hp]

/-- Claim C9: transposing twice restores the original shape and element
values, both for a square matrix (two composed in-place transposes of the
shared buffer) and for a rectangular one (two fresh out-of-place
buffers). -/
theorem transposeTwice_id (m : Matrix) (hlen : m.data.length = m.rows * m.cols) :
    (transposeTwice m).rows = m.rows ∧
    (transposeTwice m).cols = m.cols ∧
    (transposeTwice m).data.length = m.data.length ∧
    ∀ k, k < m.rows * m.cols →
      (transposeTwice m).data.getD k 0 = m.data.getD k 0 := by
  by_cases hsq : isSquare m = true
  · have hrc : m.rows = m.cols := by simpa [isSquare] using hsq
    have h1 : transposeMatrix m =
        ⟨true, transposeInPlace m, ⟨m.rows, m.cols, transposeInPlace m⟩, true⟩ := by
      simp [transposeMatrix, hsq]
    have hsq1 : isSquare (⟨m.rows, m.cols, transposeInPlace m⟩ : Matrix) = true := by
      simp [isSquare, hrc]
    have hlen1 : (⟨m.rows, m.cols, transposeInPlace m⟩ : Matrix).data.length =
        m.rows * m.cols := by
      show (transposeInPlace m).length = m.rows * m.cols
      rw [length_transposeInPlace, hlen]
    have h2 : transposeTwice m =
        ⟨m.rows, m.cols,
          transposeInPlace (⟨m.rows, m.cols, transposeInPlace m⟩ : Matrix)⟩ := by
      simp only [transposeTwice, h1]
      simp [transposeMatrix, hsq1]
    refine ⟨by rw [h2], by rw [h2], ?_, ?_⟩
    · rw [h2]
      show (transposeInPlace _).length = m.data.length
      rw [length_transposeInPlace]
      exact hlen1.trans hlen.symm
    · intro k hk
      have hc : 0 < m.cols := by
        rcases Nat.eq_zero_or_pos m.cols with h0 | h0
        · rw [h0, Nat.mul_zero] at hk
          omega
        · exact h0
      have hq : k % m.cols < m.cols := Nat.mod_lt _ hc
      have hp : k / m.cols < m.rows := (Nat.div_lt_iff_lt_mul hc).mpr hk
      have hp2 : k / m.cols < m.cols := by
        have h := hp
        rw [hrc] at h
        exact h
      have hk2 : k = k / m.cols * m.cols + k % m.cols := by
        rw [Nat.mul_comm]
        exact (Nat.div_add_mod k m.cols).symm
      rw [h2]
      show (transposeInPlace (⟨m.rows, m.cols, transposeInPlace m⟩ : Matrix)).getD
          k 0 = m.data.getD k 0
      rw [hk2]
      calc (transposeInPlace (⟨m.rows, m.cols, transposeInPlace m⟩ : Matrix)).getD
            (k / m.cols * m.cols + k % m.cols) 0
          = (transposeInPlace m).getD (k % m.cols * m.cols + k / m.cols) 0 :=
            transposeInPlace_getD ⟨m.rows, m.cols, transposeInPlace m⟩ hrc hlen1
              (k / m.cols) (k % m.cols) hp2 hq
        _ = m.data.getD (k / m.cols * m.cols + k % m.cols) 0 :=
            transposeInPlace_getD m hrc hlen (k % m.cols) (k / m.cols) hq hp2
  · have hsqf : isSquare m = false := Bool.eq_false_iff.mpr hsq
    have hrc : m.rows ≠ m.cols := by
      intro h
      exact hsq (by simp [isSquare, h])
    have h1 : transposeMatrix m =
        ⟨true, m.data, ⟨m.cols, m.rows, transposeOut m⟩, false⟩ := by
      simp [transposeMatrix, hsqf]
    have hsq1 : isSquare (⟨m.cols, m.rows, transposeOut m⟩ : Matrix) = false := by
      simp only [isSquare]
      exact beq_eq_false_iff_ne.mpr fun h => hrc h.symm
    have h2 : transposeTwice m =
        ⟨m.rows, m.cols,
          transposeOut (⟨m.cols, m.rows, transposeOut m⟩ : Matrix)⟩ := by
      simp only [transposeTwice, h1]
      simp [transposeMatrix, hsq1]
    refine ⟨by rw [h2], by rw [h2], ?_, ?_⟩
    · rw [h2]
      show (transposeOut (⟨m.cols, m.rows, transposeOut m⟩ : Matrix)).length =
        m.data.length
      rw [length_transposeOut, hlen]
    · intro k hk
      have hc : 0 < m.cols := by
        rcases Nat.eq_zero_or_pos m.cols with h0 | h0
        · rw [h0, Nat.mul_zero] at hk
          omega
        · exact h0
      have hq : k % m.cols < m.cols := Nat.mod_lt _ hc
      have hp : k / m.cols < m.rows := (Nat.div_lt_iff_lt_mul hc).mpr hk
      have hk2 : k = k / m.cols * m.cols + k % m.cols := by
        rw [Nat.mul_comm]
        exact (Nat.div_add_mod k m.cols).symm
      rw [h2]
      show (transposeOut (⟨m.cols, m.rows, transposeOut m⟩ : Matrix)).getD k 0 =
        m.data.getD k 0
      rw [hk2]
      calc (transposeOut (⟨m.cols, m.rows, transposeOut m⟩ : Matrix)).getD
            (k / m.cols * m.cols + k % m.cols) 0
          = (transposeOut m).getD (k % m.cols * m.rows + k / m.cols) 0 :=
            transposeOut_getD ⟨m.cols, m.rows, transposeOut m⟩ (k % m.cols)
              (k / m.cols) hq hp
        _ = m.data.getD (k / m.cols * m.cols + k % m.cols) 0 :=
            transposeOut_getD m (k / m.cols) (k % m.cols) hp hq

/-- Claim C9, witness: the rectangular matrix `matA23`, checked on shape
and on linear index `5`. -/
theorem transposeTwice_id_witness :
    matA23.data.length = matA23.rows * matA23.cols ∧
    (transposeTwice matA23).rows = matA23.rows ∧
    (transposeTwice matA23).data.getD 5 0 = matA23.data.getD 5 0 :=
  ⟨by decide, (transposeTwice_id matA23 (by decide)).1,
    (transposeTwice_id matA23 (by decide)).2.2.2 5 (by decide)⟩

end NaiveMatrices
